import Mathlib

/-!
# Verification of the builtin-function prototype

Shallow embedding of `src/docs/builtin_functions/prototype.hpp`, the
builtin-function dispatch layer of a small dynamically-typed expression
language: a closed tagged-union value model (`Any` in the C++ source,
`Value` here) and the six builtins `If`, `Ifs`, `Sum`, `Length`, `Let`,
`Lets`.

Modelling conventions:
* `std::variant` alternatives become `Sum` types or an explicit tag;
  the heterogeneous branch payloads of `Ifs` and the bound values of
  `Lets` are carried by the dynamic `Value` type, the single
  runtime-tagged representation the design document itself recommends.
* C++ `int` is two's-complement 32-bit; additions in `fn_sum` wrap into
  `[-2^31, 2^31)`, made explicit by `wrap32`.
* `size_t` counts become `Nat`.
* Continuations (`std::function`) become plain Lean functions.
-/

/-- The closed value universe of the runtime: the C++ `Any`, a tagged
union with exactly four alternatives (bool, int, string, list of Any). -/
inductive Value : Type where
  | boolean : Bool → Value
  | integer : Int → Value
  | text : String → Value
  | list : List Value → Value

/-- `fn_if` from the source: pick `then_` when the condition holds, else
`otherwise`; the result is a two-alternative tagged union whose index 0
alternative is the then-type and index 1 the else-type (`Sum.inl` is the
variant alternative of index 0, `Sum.inr` of index 1). -/
def fn_if {T0 T1 : Type} (condition : Bool) (then_ : T0) (otherwise : T1) :
    T0 ⊕ T1 :=
  if condition then Sum.inl then_ else Sum.inr otherwise

/-- The loop body of `fn_ifs`: the fold over `try_at` in the source.
`i` is the current branch position, `matched` the flag, `out` the
accumulated result, a pair of a variant index and a payload (index 0 is
the else alternative, index `i + 1` the alternative of branch `i`). -/
def ifsLoop : List (Bool × Value) → Nat → Bool → Nat × Value → Nat × Value
  | [], _, _, out => out
  | (cond, value) :: rest, i, matched, out =>
    if (!matched && cond) = true then
      ifsLoop rest (i + 1) true (i + 1, value)
    else
      ifsLoop rest (i + 1) matched out

/-- `fn_ifs` from the source: result starts as the else value at variant
index 0, then each (condition, value) pair is tried left to right, the
first true condition claiming the result with variant index
position + 1. -/
def fn_ifs (pairs : List (Bool × Value)) (else_ : Value) : Nat × Value :=
  ifsLoop pairs 0 false (0, else_)

/-- Reduce an integer into two's-complement 32-bit range: the value a C++
`int` holds after a possibly overflowing computation. -/
def wrap32 (z : Int) : Int :=
  (z + 2 ^ 31) % 2 ^ 32 - 2 ^ 31

/-- One C++ `int` addition, wrapping into `[-2^31, 2^31)`. -/
def add32 (a b : Int) : Int :=
  wrap32 (a + b)

/-- The `sum_one` lambda of `fn_sum`: a scalar contributes itself, a list
argument is reduced with `int` additions (`std::reduce` with
`std::plus<int>` over initial value 0). -/
def sum_one : Int ⊕ List Int → Int
  | Sum.inl x => x
  | Sum.inr xs => xs.foldl add32 0

/-- `fn_sum` from the source: fold `sum += sum_one(values)` over the
arguments, left to right, with `int` additions. -/
def fn_sum (values : List (Int ⊕ List Int)) : Int :=
  values.foldl (fun s v => add32 s (sum_one v)) 0

/-- Modelled from the spec: the exact mathematical contribution of one
`Sum` argument (the scalar itself, or the sum of the list's elements). -/
def specOne : Int ⊕ List Int → Int
  | Sum.inl x => x
  | Sum.inr xs => xs.sum

/-- Modelled from the spec: the exact mathematical sum of all scalar
arguments plus all elements of all list arguments, with no width limit.
Used to compare `fn_sum` against the spec's description of its output. -/
def sumSpec : List (Int ⊕ List Int) → Int
  | [] => 0
  | v :: rest => specOne v + sumSpec rest

/-- `fn_length` from the source: the `size()` of a text value or of a
list value (element count, elements possibly heterogeneous). -/
def fn_length : String ⊕ List Value → Nat
  | Sum.inl s => s.length
  | Sum.inr l => l.length

/-- `fn_let` from the source: bind one value under a diagnostic-only
identifier and return the continuation applied to it. -/
def fn_let {T R : Type} (var : String) (value : T) (expr : T → R) : R :=
  expr value

/-- `fn_lets` from the source: project the second component of every
(identifier, value) pair, in declaration order, and apply the
continuation to the resulting values. -/
def fn_lets {R : Type} (pairs : List (String × Value)) (expr : List Value → R) :
    R :=
  expr (pairs.map Prod.snd)

/-! ## Lemmas about the `Ifs` scan -/

/-- Once the `matched` flag is set, the remaining iterations of the
`fn_ifs` fold leave the result untouched. -/
theorem ifsLoop_matched (pairs : List (Bool × Value)) (i : Nat)
    (out : Nat × Value) : ifsLoop pairs i true out = out := by
  induction pairs generalizing i with
  | nil => rfl
  | cons p rest ih =>
    obtain ⟨c, v⟩ := p
    simp [ifsLoop, ih]

/-- If every condition is false, the `fn_ifs` fold leaves the result
untouched. -/
theorem ifsLoop_none (pairs : List (Bool × Value)) (i : Nat)
    (out : Nat × Value) (h : ∀ p ∈ pairs, p.fst = false) :
    ifsLoop pairs i false out = out := by
  induction pairs generalizing i with
  | nil => rfl
  | cons p rest ih =>
    obtain ⟨c, v⟩ := p
    have hc : c = false := h (c, v) (List.mem_cons_self _ _)
    subst hc
    simp only [ifsLoop, Bool.not_false, Bool.true_and]
    exact ih (i + 1) (fun p hp => h p (List.mem_cons_of_mem _ hp))

/-- An unmatched scan step over a false condition changes nothing but the
position counter. -/
theorem ifsLoop_cons_false (w : Value) (rest : List (Bool × Value))
    (i : Nat) (out : Nat × Value) :
    ifsLoop ((false, w) :: rest) i false out =
      ifsLoop rest (i + 1) false out := by
  simp [ifsLoop]

/-- An unmatched scan step over a true condition claims the result at
variant index position + 1 and sets the flag. -/
theorem ifsLoop_cons_true (w : Value) (rest : List (Bool × Value))
    (i : Nat) (out : Nat × Value) :
    ifsLoop ((true, w) :: rest) i false out =
      ifsLoop rest (i + 1) true (i + 1, w) := by
  simp [ifsLoop]

/-- The `fn_ifs` fold started unmatched on a list whose first true
condition sits after the all-false block `pre` selects that pair's value,
tagged with its absolute position plus one. -/
theorem ifsLoop_first (pre post : List (Bool × Value)) (v : Value)
    (i : Nat) (out : Nat × Value) (h : ∀ p ∈ pre, p.fst = false) :
    ifsLoop (pre ++ (true, v) :: post) i false out =
      (i + pre.length + 1, v) := by
  induction pre generalizing i with
  | nil =>
    rw [List.nil_append, ifsLoop_cons_true, ifsLoop_matched]
    simp
  | cons p rest ih =>
    obtain ⟨c, w⟩ := p
    have hc : c = false := h (c, w) (List.mem_cons_self _ _)
    subst hc
    rw [List.cons_append, ifsLoop_cons_false,
      ih (i + 1) (fun p hp => h p (List.mem_cons_of_mem _ hp))]
    simp only [List.length_cons]
    congr 1
    omega

/-! ## Lemmas about 32-bit wrapping arithmetic in `Sum` -/

/-- `wrap32` subtracts the overflow multiple of `2^32` picked by the
integer division. -/
theorem wrap32_eq (z : Int) :
    wrap32 z = z - 2 ^ 32 * ((z + 2 ^ 31) / 2 ^ 32) := by
  have h := Int.emod_def (z + 2 ^ 31) (2 ^ 32)
  unfold wrap32
  omega

/-- `wrap32` is invariant under shifting by any multiple of `2^32`. -/
theorem wrap32_add_mul (y k : Int) : wrap32 (y + 2 ^ 32 * k) = wrap32 y := by
  unfold wrap32
  have : y + 2 ^ 32 * k + 2 ^ 31 = y + 2 ^ 31 + 2 ^ 32 * k := by ring
  rw [this, Int.add_mul_emod_self_left]

/-- The wrapped value lies in the two's-complement 32-bit range. -/
theorem wrap32_bounds (z : Int) :
    -2 ^ 31 ≤ wrap32 z ∧ wrap32 z < 2 ^ 31 := by
  unfold wrap32
  have h1 : 0 ≤ (z + 2 ^ 31) % 2 ^ 32 :=
    Int.emod_nonneg _ (by norm_num)
  have h2 : (z + 2 ^ 31) % 2 ^ 32 < 2 ^ 32 :=
    Int.emod_lt_of_pos _ (by norm_num)
  constructor <;> omega

/-- A value already in two's-complement 32-bit range is fixed by
`wrap32`. -/
theorem wrap32_eq_self (z : Int) (h1 : -2 ^ 31 ≤ z) (h2 : z < 2 ^ 31) :
    wrap32 z = z := by
  unfold wrap32
  rw [Int.emod_eq_of_lt (by omega) (by omega)]
  omega

/-- `wrap32` is idempotent. -/
theorem wrap32_wrap32 (z : Int) : wrap32 (wrap32 z) = wrap32 z :=
  wrap32_eq_self _ (wrap32_bounds z).1 (wrap32_bounds z).2

/-- Folding a list with `int` additions agrees with its exact sum up to a
multiple of `2^32`. -/
theorem foldl_add32_shift (xs : List Int) :
    ∀ s : Int, ∃ k : Int, xs.foldl add32 s = s + xs.sum + 2 ^ 32 * k := by
  induction xs with
  | nil => intro s; exact ⟨0, by simp⟩
  | cons x rest ih =>
    intro s
    obtain ⟨k, hk⟩ := ih (add32 s x)
    refine ⟨k - (s + x + 2 ^ 31) / 2 ^ 32, ?_⟩
    rw [List.foldl_cons, hk, add32, wrap32_eq]
    rw [List.sum_cons]
    ring

/-- The C++ contribution of one argument agrees with its exact
contribution up to a multiple of `2^32`. -/
theorem sum_one_shift (v : Int ⊕ List Int) :
    ∃ k : Int, sum_one v = specOne v + 2 ^ 32 * k := by
  cases v with
  | inl x => exact ⟨0, by simp [sum_one, specOne]⟩
  | inr xs =>
    obtain ⟨k, hk⟩ := foldl_add32_shift xs 0
    exact ⟨k, by simp [sum_one, specOne, hk]⟩

/-- The accumulating fold of `fn_sum`, started on a wrapped accumulator,
computes the wrap of the exact total. -/
theorem fn_sum_foldl_wrap (values : List (Int ⊕ List Int)) :
    ∀ s : Int,
      values.foldl (fun a v => add32 a (sum_one v)) (wrap32 s) =
        wrap32 (s + sumSpec values) := by
  induction values with
  | nil => intro s; simp [sumSpec]
  | cons v rest ih =>
    intro s
    obtain ⟨k1, hk1⟩ := sum_one_shift v
    have hstep : add32 (wrap32 s) (sum_one v) = wrap32 (s + specOne v) := by
      have hs := wrap32_eq s
      have harg : wrap32 s + sum_one v =
          s + specOne v + 2 ^ 32 * (k1 - (s + 2 ^ 31) / 2 ^ 32) := by
        rw [hs, hk1]; ring
      rw [add32, harg, wrap32_add_mul]
    rw [List.foldl_cons, hstep, ih (s + specOne v)]
    rw [show sumSpec (v :: rest) = specOne v + sumSpec rest from rfl]
    ring_nf

/-- `fn_sum` computes exactly the 32-bit wrap of the exact mathematical
sum of its arguments. -/
theorem fn_sum_eq_wrap (values : List (Int ⊕ List Int)) :
    fn_sum values = wrap32 (sumSpec values) := by
  have h0 : wrap32 0 = 0 := wrap32_eq_self 0 (by norm_num) (by norm_num)
  have h := fn_sum_foldl_wrap values 0
  rw [h0] at h
  simpa [fn_sum] using h

/-- `sumSpec` distributes over list append. -/
theorem sumSpec_append (xs ys : List (Int ⊕ List Int)) :
    sumSpec (xs ++ ys) = sumSpec xs + sumSpec ys := by
  induction xs with
  | nil => simp [sumSpec]
  | cons v rest ih =>
    rw [List.cons_append]
    rw [show sumSpec ((v :: (rest ++ ys))) = specOne v + sumSpec (rest ++ ys)
      from rfl]
    rw [show sumSpec (v :: rest) = specOne v + sumSpec rest from rfl]
    rw [ih]
    ring

/-- `sumSpec` is the sum of the per-argument exact contributions. -/
theorem sumSpec_eq_map_sum (values : List (Int ⊕ List Int)) :
    sumSpec values = (values.map specOne).sum := by
  induction values with
  | nil => rfl
  | cons v rest ih =>
    rw [show sumSpec (v :: rest) = specOne v + sumSpec rest from rfl,
      List.map_cons, List.sum_cons, ih]

/-! ## Claim theorems -/

/-- C1: `Ifs` returns the value of the first pair whose condition is
true, scanned left to right, tagged with that pair's branch index plus
one (index 0 being the else alternative of the result union, index
`i + 1` the alternative of branch `i`); if no condition is true —
including the zero-pair case — it returns the else value tagged 0. -/
theorem fn_ifs_first_match :
    (∀ (pre post : List (Bool × Value)) (v e : Value),
        (∀ p ∈ pre, p.fst = false) →
        fn_ifs (pre ++ (true, v) :: post) e = (pre.length + 1, v)) ∧
    (∀ (pairs : List (Bool × Value)) (e : Value),
        (∀ p ∈ pairs, p.fst = false) → fn_ifs pairs e = (0, e)) := by
  constructor
  · intro pre post v e h
    unfold fn_ifs
    rw [ifsLoop_first pre post v 0 (0, e) h]
    simp
  · intro pairs e h
    unfold fn_ifs
    exact ifsLoop_none pairs 0 (0, e) h

/-- Witness for C1: the second branch is the first true one, so its value
is returned tagged 2, exactly as in the repository's `test_ifs`. -/
theorem fn_ifs_first_match_witness :
    fn_ifs [(false, Value.integer 7), (true, Value.text "123")]
      (Value.boolean false) = (2, Value.text "123") := by
  have h := fn_ifs_first_match.1 [(false, Value.integer 7)] []
    (Value.text "123") (Value.boolean false) (by decide)
  simpa using h

/-- C2: `If(true, a, b)` is the then alternative (variant index 0)
holding `a`, and `If(false, a, b)` is the else alternative (variant
index 1) holding `b`, for arbitrary independently chosen types; the
operation is total by construction. -/
theorem fn_if_branches :
    ∀ (T0 T1 : Type) (a : T0) (b : T1),
      fn_if true a b = Sum.inl a ∧ fn_if false a b = Sum.inr b := by
  intro T0 T1 a b
  exact ⟨rfl, rfl⟩

/-- C4: `Length` of a text value is its character count and `Length` of a
list value is its element count, for every input of the two accepted
shapes; totality on those shapes is by construction. -/
theorem fn_length_counts :
    (∀ s : String, fn_length (Sum.inl s) = s.data.length) ∧
    (∀ l : List Value, fn_length (Sum.inr l) = l.length) := by
  constructor
  · intro s; rfl
  · intro l; rfl

/-- C5: `Let` returns exactly the continuation applied to the bound
value; in this embedding the result is definitionally that single
synchronous application, so the continuation is consulted exactly once. -/
theorem fn_let_applies :
    ∀ (T R : Type) (var : String) (value : T) (expr : T → R),
      fn_let var value expr = expr value := by
  intro T R var value expr
  rfl

/-- C6: `Lets` returns exactly the continuation applied to the bound
values in declaration order, with the value at position `i` of the
argument list passed at position `i`; all values are assembled before the
single application of the continuation. -/
theorem fn_lets_positional :
    ∀ (R : Type) (pairs : List (String × Value)) (expr : List Value → R),
      fn_lets pairs expr = expr (pairs.map Prod.snd) ∧
      ∀ (i : Nat) (h1 : i < pairs.length)
        (h2 : i < (pairs.map Prod.snd).length),
        (pairs.map Prod.snd).get ⟨i, h2⟩ = (pairs.get ⟨i, h1⟩).snd := by
  intro R pairs expr
  refine ⟨rfl, ?_⟩
  intro i h1 h2
  simp [List.get_eq_getElem, List.getElem_map]

/-- Witness for C6: the three bindings of the repository's `test_lets`,
passed positionally. -/
theorem fn_lets_positional_witness :
    fn_lets [("x", Value.integer 1), ("y", Value.text "2")] (fun l => l) =
      [Value.integer 1, Value.text "2"] ∧
    ([("x", Value.integer 1), ("y", Value.text "2")].map Prod.snd).get
      ⟨1, by decide⟩ = Value.text "2" := by
  constructor
  · exact (fn_lets_positional (List Value)
      [("x", Value.integer 1), ("y", Value.text "2")] (fun l => l)).1
  · have h := (fn_lets_positional (List Value)
      [("x", Value.integer 1), ("y", Value.text "2")] (fun l => l)).2 1
      (by decide) (by decide)
    exact h.trans rfl

/-- Counterexample for C3: at `Sum(2147483647, 1)` the `int` accumulator
overflows, so the returned integer is `-2147483648`, not the mathematical
sum `2147483648` the claim promises. -/
theorem fn_sum_exact_cex :
    fn_sum [Sum.inl 2147483647, Sum.inl 1] = -2147483648 ∧
    sumSpec [Sum.inl 2147483647, Sum.inl 1] = 2147483648 ∧
    fn_sum [Sum.inl 2147483647, Sum.inl 1] ≠
      sumSpec [Sum.inl 2147483647, Sum.inl 1] := by
  refine ⟨?_, ?_, ?_⟩ <;> decide

/-- C3 as amended: `Sum` returns the mathematical sum of all scalar
arguments plus all elements of all list arguments reduced into
two's-complement 32-bit range; in particular it returns exactly that sum
whenever the sum lies in `[-2^31, 2^31)` (so zero arguments and empty
lists contribute 0 as claimed). -/
theorem fn_sum_exact_in_range :
    ∀ vs : List (Int ⊕ List Int),
      fn_sum vs = wrap32 (sumSpec vs) ∧
      (-2 ^ 31 ≤ sumSpec vs → sumSpec vs < 2 ^ 31 →
        fn_sum vs = sumSpec vs) := by
  intro vs
  refine ⟨fn_sum_eq_wrap vs, fun h1 h2 => ?_⟩
  rw [fn_sum_eq_wrap vs, wrap32_eq_self _ h1 h2]

/-- Witness for C3 as amended: `Sum(1, [2,3], 4) = 10`, the example of
the repository's `test_sum`. -/
theorem fn_sum_exact_in_range_witness :
    fn_sum [Sum.inl 1, Sum.inr [2, 3], Sum.inl 4] = 10 := by
  have h := (fn_sum_exact_in_range [Sum.inl 1, Sum.inr [2, 3], Sum.inl 4]).2
    (by decide) (by decide)
  rw [h]
  decide

/-- Counterexample for C7: at `Sum(2147483647, 2147483647)` the code
returns `-2`; it neither raises an overflow error (the operation is total
and returns an integer) nor clamps at the bound `2147483647`. -/
theorem fn_sum_overflow_mode_cex :
    fn_sum [Sum.inl 2147483647, Sum.inl 2147483647] = -2 ∧
    fn_sum [Sum.inl 2147483647, Sum.inl 2147483647] ≠ 2147483647 := by
  constructor <;> decide

/-- C7 as amended: `Sum`'s arithmetic is neither checked nor saturating;
it wraps: the result always lies in the two's-complement 32-bit range and
is congruent to the exact mathematical sum modulo `2^32`. -/
theorem fn_sum_wraps :
    ∀ vs : List (Int ⊕ List Int),
      (-2 ^ 31 ≤ fn_sum vs ∧ fn_sum vs < 2 ^ 31) ∧
      (fn_sum vs - sumSpec vs) % 2 ^ 32 = 0 := by
  intro vs
  obtain ⟨h1, h2⟩ := wrap32_bounds (sumSpec vs)
  refine ⟨⟨?_, ?_⟩, ?_⟩
  · rw [fn_sum_eq_wrap vs]; exact h1
  · rw [fn_sum_eq_wrap vs]; exact h2
  · rw [fn_sum_eq_wrap vs, wrap32_eq]
    have h3 : sumSpec vs -
        2 ^ 32 * ((sumSpec vs + 2 ^ 31) / 2 ^ 32) - sumSpec vs =
        2 ^ 32 * (-((sumSpec vs + 2 ^ 31) / 2 ^ 32)) := by ring
    rw [h3, Int.mul_emod_right]

/-- Counterexample for C10: concatenating `[2147483647]` and `[2]` makes
the accumulator overflow, so `Sum` of the concatenation differs from the
sum of the two separate results. -/
theorem fn_sum_append_cex :
    fn_sum ([Sum.inl 2147483647] ++ [Sum.inl 2]) ≠
      fn_sum [Sum.inl 2147483647] + fn_sum [Sum.inl 2] := by
  decide

/-- C10 as amended: `Sum` is a homomorphism from argument concatenation
to 32-bit wrapped addition of the two results, and its result is exactly
invariant under any permutation of its arguments. -/
theorem fn_sum_append_wrap :
    ∀ xs ys : List (Int ⊕ List Int),
      fn_sum (xs ++ ys) = wrap32 (fn_sum xs + fn_sum ys) ∧
      (xs.Perm ys → fn_sum xs = fn_sum ys) := by
  intro xs ys
  constructor
  · rw [fn_sum_eq_wrap, fn_sum_eq_wrap, fn_sum_eq_wrap, sumSpec_append]
    have harg : wrap32 (sumSpec xs) + wrap32 (sumSpec ys) =
        sumSpec xs + sumSpec ys + 2 ^ 32 *
          (-((sumSpec xs + 2 ^ 31) / 2 ^ 32) -
            (sumSpec ys + 2 ^ 31) / 2 ^ 32) := by
      rw [wrap32_eq (sumSpec xs), wrap32_eq (sumSpec ys)]; ring
    rw [harg, wrap32_add_mul]
  · intro hperm
    rw [fn_sum_eq_wrap, fn_sum_eq_wrap, sumSpec_eq_map_sum,
      sumSpec_eq_map_sum, List.Perm.sum_eq (hperm.map specOne)]

/-- Witness for C10 as amended: swapping the two arguments of
`Sum(1, [2,3])` leaves the result unchanged. -/
theorem fn_sum_append_wrap_witness :
    fn_sum [Sum.inl 1, Sum.inr [2, 3]] =
      fn_sum [Sum.inr [2, 3], Sum.inl 1] :=
  (fn_sum_append_wrap [Sum.inl 1, Sum.inr [2, 3]]
    [Sum.inr [2, 3], Sum.inl 1]).2 (by decide)

/-- C8: every builtin is deterministic — invocations on inputs equal by
value give outputs equal by value; each operation is a pure function of
its inputs in this embedding, the call-local mutation of the source
(`matched`, `out`, `sum`) being internal to the fold. -/
theorem builtins_deterministic :
    (∀ (T0 T1 : Type) (c c' : Bool) (a a' : T0) (b b' : T1),
        c = c' → a = a' → b = b' → fn_if c a b = fn_if c' a' b') ∧
    (∀ (ps qs : List (Bool × Value)) (e e' : Value),
        ps = qs → e = e' → fn_ifs ps e = fn_ifs qs e') ∧
    (∀ vs ws : List (Int ⊕ List Int), vs = ws → fn_sum vs = fn_sum ws) ∧
    (∀ x y : String ⊕ List Value, x = y → fn_length x = fn_length y) ∧
    (∀ (T R : Type) (u w : String) (v v' : T) (f g : T → R),
        u = w → v = v' → f = g → fn_let u v f = fn_let w v' g) ∧
    (∀ (R : Type) (ps qs : List (String × Value)) (f g : List Value → R),
        ps = qs → f = g → fn_lets ps f = fn_lets qs g) := by
  refine ⟨?_, ?_, ?_, ?_, ?_, ?_⟩ <;> intros <;> subst_vars <;> rfl

/-- Witness for C8: two conjuncts exercised on the repository's own test
inputs. -/
theorem builtins_deterministic_witness :
    fn_ifs [(true, Value.integer 42)] (Value.boolean false) =
      fn_ifs [(true, Value.integer 42)] (Value.boolean false) ∧
    fn_sum [Sum.inl 3] = fn_sum [Sum.inl 3] :=
  ⟨builtins_deterministic.2.1 _ _ _ _ rfl rfl,
    builtins_deterministic.2.2.1 _ _ rfl⟩

/-- C9: `Let` and `Lets` never consult their identifier labels — two
invocations differing only in identifier strings but agreeing on bound
values and continuation return equal results. -/
theorem bindings_ignore_identifiers :
    (∀ (T R : Type) (u w : String) (value : T) (expr : T → R),
        fn_let u value expr = fn_let w value expr) ∧
    (∀ (R : Type) (ps qs : List (String × Value)) (expr : List Value → R),
        ps.map Prod.snd = qs.map Prod.snd →
        fn_lets ps expr = fn_lets qs expr) := by
  constructor
  · intro T R u w value expr; rfl
  · intro R ps qs expr h
    unfold fn_lets
    rw [h]

/-- Witness for C9: renaming the sole binding from "a" to "b" leaves the
result of `Lets` unchanged. -/
theorem bindings_ignore_identifiers_witness :
    fn_lets [("a", Value.integer 1)] (fun l => l) =
      fn_lets [("b", Value.integer 1)] (fun l => l) :=
  bindings_ignore_identifiers.2 (List Value) [("a", Value.integer 1)]
    [("b", Value.integer 1)] (fun l => l) rfl
